import Mathlib

/-
Verification of the sound-processing hotword pipeline (src/main.py).

Shallow embedding notes:
- PCM samples are modelled as Lean Int values; one wave frame of a mono
  16-bit file is one sample (2 bytes).  wave.readframes(n) from position p
  is (frames.drop p).take n, advancing the position by the length actually
  read.
- struct.unpack_from("h" * fl, pcm) succeeds exactly when pcm holds at
  least fl samples; a shorter byte string raises struct.error.
- The Porcupine detector (porcupine.process) is a black-box function
  List Int -> Int returning a nonnegative match index or -1.
- A Vosk recognizer call rec.AcceptWaveform(data) either returns True,
  in which case rec.Result() carries a final text, or False, in which
  case rec.PartialResult() carries an in-progress text.  The black box
  is modelled by the response it gives to each successive call.
-/

namespace SoundProc

/-- Outcome of one Vosk AcceptWaveform call: `accepted t` models
AcceptWaveform returning True with Result text `t`; `pending t` models
AcceptWaveform returning False with PartialResult text `t`. -/
inductive VoskStep where
  | accepted (text : String)
  | pending (text : String)
deriving DecidableEq

/-- A wave file as opened by wave.open: header fields and the sample data. -/
structure WavFile where
  nchannels : Nat
  sampwidth : Nat
  framerate : Nat
  frames : List Int
deriving DecidableEq

/-- Environment of run_file_mode: the Porcupine detector (frame length,
native sample rate, process function) and the Vosk transcriber, modelled
as the response to the n-th AcceptWaveform call of a fresh recognizer. -/
structure FileEnv where
  fl : Nat
  sampleRate : Nat
  detect : List Int → Int
  resp : Nat → VoskStep

/-- Result of recognize_next_word_from_position: number of AcceptWaveform
calls made, the file position when the loop ended (so consumed frames are
finalPos - startFrame), and the recognized text logged at the break, if any. -/
structure CapResult where
  calls : Nat
  finalPos : Nat
  text : Option String
deriving DecidableEq

/-- The while loop of recognize_next_word_from_position (src/main.py 197-206):
read up to 8000 frames from the current position; stop on an empty read;
feed the block to the recognizer; stop when AcceptWaveform returns True
with non-empty text.  Fuel bounds the recursion; each iteration advances
the position by at least one frame, so frames.length + 1 fuel suffices. -/
def capLoop (resp : Nat → VoskStep) (frames : List Int) : Nat → Nat → Nat → CapResult
  | 0, pos, n => ⟨n, pos, none⟩
  | fuel+1, pos, n =>
    if ((frames.drop pos).take 8000) = [] then ⟨n, pos, none⟩
    else
      match resp n with
      | .accepted t =>
        if t = "" then capLoop resp frames fuel (pos + ((frames.drop pos).take 8000).length) (n+1)
        else ⟨n+1, pos + ((frames.drop pos).take 8000).length, some t⟩
      | .pending _ => capLoop resp frames fuel (pos + ((frames.drop pos).take 8000).length) (n+1)

/-- recognize_next_word_from_position (src/main.py 180-208): re-opens the
file on its own handle, validates mono / 16-bit / 16000 Hz, seeks to
startFrame and runs the capture loop.  On a failed validation it returns
with no read and no recognizer call. -/
def recognize_next_word_from_position (resp : Nat → VoskStep) (file : WavFile)
    (startFrame : Nat) : CapResult :=
  if file.nchannels ≠ 1 ∨ file.sampwidth ≠ 2 ∨ file.framerate ≠ 16000 then
    ⟨0, startFrame, none⟩
  else capLoop resp file.frames (file.frames.length + 1) startFrame 0

/-- Observable events of a file-mode run: a detector call (window start
position, the window handed to porcupine.process, its result) or an
utterance capture (the recorded start_frame and the capture outcome). -/
inductive FEvent where
  | det (pos : Nat) (window : List Int) (result : Int)
  | cap (startFrame : Nat) (res : CapResult)
deriving DecidableEq

/-- How a file-mode run ended: rejected by validation, end of file
(readframes returned nothing), a short final read (struct.error caught at
src/main.py 250), or fuel exhaustion (never reached with enough fuel). -/
inductive FileOutcome where
  | rejected
  | eof
  | shortEnd
  | fuelOut
deriving DecidableEq

/-- The scanning loop of run_file_mode (src/main.py 234-248): read
frame_length frames, stop on an empty read, abort via struct.error on a
short read, otherwise call porcupine.process; on a match record
start_frame = tell() and run the capture on a separate handle (the scan
position is not advanced by the capture). -/
def fileLoop (env : FileEnv) (file : WavFile) : Nat → Nat → List FEvent × FileOutcome
  | 0, _ => ([], .fuelOut)
  | fuel+1, pos =>
    if ((file.frames.drop pos).take env.fl) = [] then ([], .eof)
    else if ((file.frames.drop pos).take env.fl).length < env.fl then ([], .shortEnd)
    else if 0 ≤ env.detect ((file.frames.drop pos).take env.fl) then
      (FEvent.det pos ((file.frames.drop pos).take env.fl)
          (env.detect ((file.frames.drop pos).take env.fl)) ::
        FEvent.cap (pos + env.fl)
          (recognize_next_word_from_position env.resp file (pos + env.fl)) ::
        (fileLoop env file fuel (pos + env.fl)).1,
       (fileLoop env file fuel (pos + env.fl)).2)
    else
      (FEvent.det pos ((file.frames.drop pos).take env.fl)
          (env.detect ((file.frames.drop pos).take env.fl)) ::
        (fileLoop env file fuel (pos + env.fl)).1,
       (fileLoop env file fuel (pos + env.fl)).2)

/-- run_file_mode (src/main.py 211-255): validate mono / 16-bit /
porcupine.sample_rate before any read, then scan from position 0. -/
def run_file_mode (env : FileEnv) (file : WavFile) : List FEvent × FileOutcome :=
  if file.nchannels ≠ 1 ∨ file.sampwidth ≠ 2 ∨ file.framerate ≠ env.sampleRate then
    ([], .rejected)
  else fileLoop env file (file.frames.length + 1) 0

/-- Start positions of the windows handed to porcupine.process, in order. -/
def detPositions : List FEvent → List Nat
  | [] => []
  | .det p _ _ :: rest => p :: detPositions rest
  | .cap _ _ :: rest => detPositions rest

/-- Number of utterance captures started during a run. -/
def capCount : List FEvent → Nat
  | [] => 0
  | .cap _ _ :: rest => capCount rest + 1
  | .det _ _ _ :: rest => capCount rest

/-- Checks a relation between every two adjacent events of a trace. -/
def adjacentAll (f : FEvent → FEvent → Bool) : List FEvent → Bool
  | e1 :: e2 :: rest => f e1 e2 && adjacentAll f (e2 :: rest)
  | _ => true

/-- The resumption point asserted by the spec: a capture event must be
followed, if by any detector call, by one starting exactly at the capture
start position plus the frames the capture consumed (its final position). -/
def resumesAfterConsumed (e1 e2 : FEvent) : Bool :=
  match e1, e2 with
  | .cap _ res, .det p _ _ => decide (p = res.finalPos)
  | _, _ => true

/-- The resumption point the code implements: a capture event is followed,
if by any detector call, by one starting exactly at the recorded
start_frame (the frame right after the matched window). -/
def resumesAtRecorded (e1 e2 : FEvent) : Bool :=
  match e1, e2 with
  | .cap sf _, .det p _ _ => decide (p = sf)
  | _, _ => true

/-! Live (microphone) mode. -/

/-- Environment of run_live_mode: the device sample stream (pyaudio read
blocks until the requested number of samples is available, so a read of
fl samples at offset p yields exactly samples p .. p+fl-1), the detector
and the transcriber responses used by recognize_next_word_microphone. -/
structure LiveEnv where
  fl : Nat
  mic : Nat → Int
  detect : List Int → Int
  resp : Nat → VoskStep

/-- One blocking device read of the detector frame length
(audio_stream.read(porcupine.frame_length), src/main.py 100). -/
def liveWindow (env : LiveEnv) (pos : Nat) : List Int :=
  (List.range env.fl).map fun i => env.mic (pos + i)

/-- Break test of the live capture loop (src/main.py 60-66): the loop
breaks exactly when AcceptWaveform returned False and the partial text is
longer than one character; a True return is ignored by the loop body. -/
def liveStop : VoskStep → Bool
  | .accepted _ => false
  | .pending t => decide (1 < t.length)

/-- The while loop of recognize_next_word_microphone: on the n-th
AcceptWaveform call, break when liveStop fires; otherwise keep reading.
Returns the number of calls made when the break fired, or none if the
fuel ran out first (the Python loop would still be running). -/
def micLoop (resp : Nat → VoskStep) : Nat → Nat → Option Nat
  | 0, _ => none
  | fuel+1, n =>
    if liveStop (resp n) then some (n + 1)
    else micLoop resp fuel (n + 1)

/-- recognize_next_word_microphone (src/main.py 52-66), fuel-bounded. -/
def recognize_next_word_microphone (resp : Nat → VoskStep) (fuel : Nat) : Option Nat :=
  micLoop resp fuel 0

/-- The scanning loop of run_live_mode (src/main.py 99-106): each
iteration reads one detector-length window from the device stream and
hands it to porcupine.process; on a match the capture runs on a separate
sounddevice stream, consuming nothing from this one.  Records each
window, the detector result, and the capture outcome when one ran. -/
def liveLoop (env : LiveEnv) (capFuel : Nat) : Nat → Nat → List (List Int × Int × Option (Option Nat))
  | 0, _ => []
  | fuel+1, pos =>
    (liveWindow env pos, env.detect (liveWindow env pos),
      if 0 ≤ env.detect (liveWindow env pos) then
        some (recognize_next_word_microphone env.resp capFuel)
      else none) ::
    liveLoop env capFuel fuel (pos + env.fl)

/-- run_live_mode scanning, fuel-bounded (the Python loop runs until
interrupted). -/
def run_live_mode (env : LiveEnv) (capFuel fuel : Nat) : List (List Int × Int × Option (Option Nat)) :=
  liveLoop env capFuel fuel 0

/-! Radio (stream) mode. -/

/-- Python exception classes relevant to process_audio_chunk.  The except
clause at src/main.py 160 catches IOError, struct.error and ValueError.
pydub raises CouldntDecodeError, a direct subclass of Exception and of
none of the three, when ffmpeg fails to decode the buffered bytes. -/
inductive PyExc where
  | ioError
  | structError
  | valueError
  | couldntDecode
deriving DecidableEq

/-- Exception classes caught by the except clause of process_audio_chunk. -/
def caughtByChunkHandler : PyExc → Bool
  | .ioError => true
  | .structError => true
  | .valueError => true
  | .couldntDecode => false

/-- Environment of run_radio_mode: the Porcupine frame length, the mp3
decoder (AudioSegment.from_file followed by raw_data, modelled as samples,
failing with some exception class on a malformed unit), the detector, and
the single-shot Vosk recognizer used by recognize_word_in_chunk (response
of a fresh recognizer to one AcceptWaveform of the given data). -/
structure RadioEnv where
  fl : Nat
  decode : List Nat → Except PyExc (List Int)
  detect : List Int → Int
  vosk1 : List Int → VoskStep

/-- What one call of process_audio_chunk did: a caught exception if one
was raised, the window handed to porcupine.process if the unpack
succeeded, and the recognition outcome (text and the list of blocks
submitted to AcceptWaveform) if the detector matched. -/
structure ChunkReport where
  caughtErr : Option PyExc
  detWindow : Option (List Int)
  recognized : Option (String × List (List Int))
deriving DecidableEq

/-- recognize_word_in_chunk (src/main.py 114-125): create a fresh
recognizer, submit the whole chunk in one AcceptWaveform call, return the
final text when a segment completed, the partial text otherwise.
The second component lists every block submitted to AcceptWaveform. -/
def recognize_word_in_chunk (vosk1 : List Int → VoskStep) (audioChunk : List Int) :
    String × List (List Int) :=
  match vosk1 audioChunk with
  | .accepted t => (t, [audioChunk])
  | .pending t => (t, [audioChunk])

/-- process_audio_chunk (src/main.py 142-161): decode the buffered bytes,
unpack the first frame_length samples (struct.error on a shorter unit),
run the detector, and on a match recognize over the whole decoded unit.
Exceptions of the classes listed in the except clause are caught and
reported; any other exception escapes as Except.error. -/
def process_audio_chunk (env : RadioEnv) (buffer : List Nat) : Except PyExc ChunkReport :=
  match env.decode buffer with
  | .error k =>
    if caughtByChunkHandler k then .ok ⟨some k, none, none⟩ else .error k
  | .ok audioData =>
    if (audioData.take env.fl).length < env.fl then .ok ⟨some .structError, none, none⟩
    else if 0 ≤ env.detect (audioData.take env.fl) then
      .ok ⟨none, some (audioData.take env.fl), some (recognize_word_in_chunk env.vosk1 audioData)⟩
    else .ok ⟨none, some (audioData.take env.fl), none⟩

/-- The two flush ceilings of run_radio_mode (src/main.py 31-32, 168):
module constants BUFFER_SIZE and BUFFER_TIME, kept as a configuration. -/
structure RadioCfg where
  sizeCeil : Nat
  timeCeil : Nat

/-- BUFFER_SIZE = 1024 * 100 (src/main.py 31). -/
def BUFFER_SIZE : Nat := 1024 * 100

/-- BUFFER_TIME = 5 seconds (src/main.py 32). -/
def BUFFER_TIME : Nat := 5

/-- The configuration the source runs with. -/
def defaultRadioCfg : RadioCfg := ⟨BUFFER_SIZE, BUFFER_TIME⟩

/-- One transport chunk from response.iter_content, with the wall-clock
reading taken when the flush condition is checked (tArrive) and the one
taken when start_time is reset after a flush (tAfter). -/
structure ChunkEvent where
  chunk : List Nat
  tArrive : Nat
  tAfter : Nat
deriving DecidableEq

/-- Mutable state of the ingestion loop: the reassembly buffer
(audio_buffer) and start_time. -/
structure RState where
  buffer : List Nat
  startTime : Nat
deriving DecidableEq

/-- Outcome of ingesting one chunk: either the loop continues with a new
state (recording the flushed unit and its report when a flush ran), or an
uncaught exception escaped process_audio_chunk and aborts the loop. -/
inductive StepResult where
  | ok (next : RState) (flushed : Option (List Nat × ChunkReport))
  | abort (flushedUnit : List Nat) (exc : PyExc)
deriving DecidableEq

/-- The body of the ingestion loop of run_radio_mode (src/main.py
163-171): skip empty chunks; append the chunk to the buffer; if the
buffer size reached BUFFER_SIZE or the elapsed time since the last flush
reached BUFFER_TIME, hand the buffer to process_audio_chunk, then reset
the buffer to empty and restart the clock. -/
def radioStep (cfg : RadioCfg) (env : RadioEnv) (s : RState) (e : ChunkEvent) : StepResult :=
  if e.chunk = [] then .ok s none
  else
    if cfg.sizeCeil ≤ (s.buffer ++ e.chunk).length ∨ cfg.timeCeil ≤ e.tArrive - s.startTime then
      match process_audio_chunk env (s.buffer ++ e.chunk) with
      | .ok rep => .ok ⟨[], e.tAfter⟩ (some (s.buffer ++ e.chunk, rep))
      | .error k => .abort (s.buffer ++ e.chunk) k
    else .ok ⟨s.buffer ++ e.chunk, s.startTime⟩ none

/-- The unit handed to process_audio_chunk by this step, if a flush ran
(whether or not the processing then raised). -/
def StepResult.flushUnit : StepResult → Option (List Nat)
  | .ok _ none => none
  | .ok _ (some (u, _)) => some u
  | .abort u _ => some u

/-- Record of one ingested chunk: the event, the flush it triggered (unit
and report) if any, and the state the loop continued with. -/
structure StepRec where
  event : ChunkEvent
  flushed : Option (List Nat × ChunkReport)
  after : RState
deriving DecidableEq

/-- How the ingestion loop ended: all chunks consumed, or an uncaught
exception escaped while some events (the aborting one included) were
still unconsumed or half-consumed. -/
inductive RunTail where
  | done (final : RState)
  | aborted (exc : PyExc) (remaining : List ChunkEvent)
deriving DecidableEq

/-- True when the run consumed every chunk without an escaping exception. -/
def RunTail.isDone : RunTail → Bool
  | .done _ => true
  | .aborted _ _ => false

/-- run_radio_mode ingestion (src/main.py 163-171) over a finite chunk
trace: fold radioStep, stopping when an exception escapes. -/
def run_radio_mode (cfg : RadioCfg) (env : RadioEnv) : RState → List ChunkEvent → List StepRec × RunTail
  | s, [] => ([], .done s)
  | s, e :: rest =>
    match radioStep cfg env s e with
    | .ok s2 flushed =>
      (⟨e, flushed, s2⟩ :: (run_radio_mode cfg env s2 rest).1, (run_radio_mode cfg env s2 rest).2)
    | .abort _ k => ([], .aborted k (e :: rest))

/-! Helper lemmas about the file-mode scanning loop. -/

/-- Every detector window start emitted by the loop lies at or after the
position the loop was entered with. -/
theorem detPositions_fileLoop_ge (env : FileEnv) (file : WavFile) :
    ∀ fuel pos q, q ∈ detPositions (fileLoop env file fuel pos).1 → pos ≤ q := by
  intro fuel
  induction fuel with
  | zero =>
    intro pos q hq
    simp [fileLoop, detPositions] at hq
  | succ m ih =>
    intro pos q hq
    rw [fileLoop] at hq
    by_cases h1 : ((file.frames.drop pos).take env.fl) = []
    · rw [if_pos h1] at hq
      simp [detPositions] at hq
    · rw [if_neg h1] at hq
      by_cases h2 : ((file.frames.drop pos).take env.fl).length < env.fl
      · rw [if_pos h2] at hq
        simp [detPositions] at hq
      · rw [if_neg h2] at hq
        by_cases h3 : 0 ≤ env.detect ((file.frames.drop pos).take env.fl)
        · rw [if_pos h3] at hq
          simp only [detPositions, List.mem_cons] at hq
          rcases hq with rfl | hq
          · exact Nat.le_refl q
          · exact Nat.le_trans (Nat.le_add_right pos env.fl) (ih _ _ hq)
        · rw [if_neg h3] at hq
          simp only [detPositions, List.mem_cons] at hq
          rcases hq with rfl | hq
          · exact Nat.le_refl q
          · exact Nat.le_trans (Nat.le_add_right pos env.fl) (ih _ _ hq)

/-- The loop trace is empty or starts with a detector call at the entry
position. -/
theorem fileLoop_head_shape (env : FileEnv) (file : WavFile) (fuel pos : Nat) :
    (fileLoop env file fuel pos).1 = [] ∨
    ∃ w r tl, (fileLoop env file fuel pos).1 = FEvent.det pos w r :: tl := by
  cases fuel with
  | zero => exact Or.inl rfl
  | succ m =>
    rw [fileLoop]
    by_cases h1 : ((file.frames.drop pos).take env.fl) = []
    · rw [if_pos h1]; exact Or.inl rfl
    · rw [if_neg h1]
      by_cases h2 : ((file.frames.drop pos).take env.fl).length < env.fl
      · rw [if_pos h2]; exact Or.inl rfl
      · rw [if_neg h2]
        by_cases h3 : 0 ≤ env.detect ((file.frames.drop pos).take env.fl)
        · rw [if_pos h3]; exact Or.inr ⟨_, _, _, rfl⟩
        · rw [if_neg h3]; exact Or.inr ⟨_, _, _, rfl⟩

/-- Prepending an event preserves adjacentAll when the new adjacent pair
satisfies the relation. -/
theorem adjacentAll_cons (f : FEvent → FEvent → Bool) (x : FEvent) (l : List FEvent)
    (hx : ∀ y tl2, l = y :: tl2 → f x y = true) (hl : adjacentAll f l = true) :
    adjacentAll f (x :: l) = true := by
  cases l with
  | nil => rfl
  | cons y tl => simp [adjacentAll, hx y tl rfl, hl]

/-- After every capture event the loop resumes scanning exactly at the
recorded start_frame: any detector call directly following a capture
starts at the capture start position. -/
theorem fileLoop_resumesAtRecorded (env : FileEnv) (file : WavFile) :
    ∀ fuel pos, adjacentAll resumesAtRecorded (fileLoop env file fuel pos).1 = true := by
  intro fuel
  induction fuel with
  | zero => intro pos; rfl
  | succ m ih =>
    intro pos
    rw [fileLoop]
    by_cases h1 : ((file.frames.drop pos).take env.fl) = []
    · rw [if_pos h1]; rfl
    · rw [if_neg h1]
      by_cases h2 : ((file.frames.drop pos).take env.fl).length < env.fl
      · rw [if_pos h2]; rfl
      · rw [if_neg h2]
        by_cases h3 : 0 ≤ env.detect ((file.frames.drop pos).take env.fl)
        · rw [if_pos h3]
          apply adjacentAll_cons
          · intro y tl2 heq
            cases heq
            rfl
          · apply adjacentAll_cons
            · intro y tl2 heq
              rcases fileLoop_head_shape env file m (pos + env.fl) with hnil | ⟨w, r, tl, hdet⟩
              · rw [hnil] at heq; cases heq
              · rw [hdet] at heq
                cases heq
                simp [resumesAtRecorded]
            · exact ih (pos + env.fl)
        · rw [if_neg h3]
          apply adjacentAll_cons
          · intro y tl2 heq
            cases y <;> rfl
          · exact ih (pos + env.fl)

/-- Detector windows never overlap: the start positions of successive
detector calls are at least one full frame length apart, pairwise over
the whole run, so no sample position is handed to the detector twice. -/
theorem detPositions_fileLoop_pairwise (env : FileEnv) (file : WavFile) :
    ∀ fuel pos,
      List.Pairwise (fun a b => a + env.fl ≤ b) (detPositions (fileLoop env file fuel pos).1) := by
  intro fuel
  induction fuel with
  | zero => intro pos; simp [fileLoop, detPositions]
  | succ m ih =>
    intro pos
    rw [fileLoop]
    by_cases h1 : ((file.frames.drop pos).take env.fl) = []
    · rw [if_pos h1]; simp [detPositions]
    · rw [if_neg h1]
      by_cases h2 : ((file.frames.drop pos).take env.fl).length < env.fl
      · rw [if_pos h2]; simp [detPositions]
      · rw [if_neg h2]
        by_cases h3 : 0 ≤ env.detect ((file.frames.drop pos).take env.fl)
        · rw [if_pos h3]
          simp only [detPositions]
          refine List.Pairwise.cons (fun q hq => ?_) (ih (pos + env.fl))
          exact detPositions_fileLoop_ge env file m (pos + env.fl) q hq
        · rw [if_neg h3]
          simp only [detPositions]
          refine List.Pairwise.cons (fun q hq => ?_) (ih (pos + env.fl))
          exact detPositions_fileLoop_ge env file m (pos + env.fl) q hq

/-! Claim C1. -/

/-- Concrete detector for the C1 counterexample: matches exactly the
window [10, 11]. -/
def c1Env : FileEnv :=
  ⟨2, 16000, fun w => if w = [10, 11] then 0 else -1, fun _ => .accepted "hi"⟩

/-- Concrete six-sample file for the C1 counterexample. -/
def c1File : WavFile := ⟨1, 2, 16000, [10, 11, 12, 13, 14, 15]⟩

/-- C1, counterexample.  On a file whose first window matches and whose
capture consumes the four remaining samples (capture result: one call,
final position 6, text "hi"), the run performs a capture yet the next
detector call starts at the recorded start_frame 2, not at position 6 =
start_frame + consumed frames: the claimed resumption point is wrong. -/
theorem c1_counterexample :
    (run_file_mode c1Env c1File).1 =
      [FEvent.det 0 [10, 11] 0, FEvent.cap 2 ⟨1, 6, some "hi"⟩,
       FEvent.det 2 [12, 13] (-1), FEvent.det 4 [14, 15] (-1)] ∧
    adjacentAll resumesAfterConsumed (run_file_mode c1Env c1File).1 = false := by
  constructor
  · decide
  · decide

/-- C1, amended.  In file mode the scan resumes at the recorded
FilePosition (the frame immediately after the matched window), not after
the frames consumed by the capture, because the capture reads through a
separate file handle; the frames the capture consumed are scanned again
by the detector afterwards.  Still, the wake detector itself never
processes any frame twice: successive detector windows start at
positions a full frame length apart. -/
theorem c1_scan_resumes_at_recorded_position (env : FileEnv) (file : WavFile) :
    List.Pairwise (fun a b => a + env.fl ≤ b) (detPositions (run_file_mode env file).1) ∧
    adjacentAll resumesAtRecorded (run_file_mode env file).1 = true := by
  unfold run_file_mode
  by_cases h : file.nchannels ≠ 1 ∨ file.sampwidth ≠ 2 ∨ file.framerate ≠ env.sampleRate
  · rw [if_pos h]
    exact ⟨List.Pairwise.nil, rfl⟩
  · rw [if_neg h]
    exact ⟨detPositions_fileLoop_pairwise env file _ 0, fileLoop_resumesAtRecorded env file _ 0⟩

/-! Claim C4. -/

/-- On a region of exactly k full frames with a detector that never
matches, the scan makes exactly k detector calls, starts no capture and
ends at end of file. -/
theorem fileLoop_noMatch (env : FileEnv) (file : WavFile)
    (hdet : ∀ w, env.detect w < 0) :
    ∀ k pos fuel, file.frames.length = pos + k * env.fl → 0 < env.fl → k < fuel →
      (fileLoop env file fuel pos).2 = .eof ∧
      (detPositions (fileLoop env file fuel pos).1).length = k ∧
      capCount (fileLoop env file fuel pos).1 = 0 := by
  intro k
  induction k with
  | zero =>
    intro pos fuel hlen hfl hk
    obtain ⟨m, rfl⟩ : ∃ m, fuel = m + 1 := ⟨fuel - 1, by omega⟩
    have hdrop : file.frames.drop pos = [] := by
      apply List.length_eq_zero.mp
      rw [List.length_drop, hlen]
      omega
    have htake : (file.frames.drop pos).take env.fl = [] := by rw [hdrop]; simp
    rw [fileLoop, if_pos htake]
    exact ⟨rfl, rfl, rfl⟩
  | succ j ihj =>
    intro pos fuel hlen hfl hk
    obtain ⟨m, rfl⟩ : ∃ m, fuel = m + 1 := ⟨fuel - 1, by omega⟩
    have hwl : ((file.frames.drop pos).take env.fl).length = env.fl := by
      rw [List.length_take, List.length_drop, hlen]
      have h1 : pos + (j + 1) * env.fl - pos = (j + 1) * env.fl := by omega
      rw [h1]
      exact Nat.min_eq_left (Nat.le_mul_of_pos_left env.fl (Nat.succ_pos j))
    have hne : ((file.frames.drop pos).take env.fl) ≠ [] := by
      intro hnil
      rw [hnil] at hwl
      simp at hwl
      omega
    have hnotlt : ¬ ((file.frames.drop pos).take env.fl).length < env.fl := by omega
    have hr : ¬ (0 ≤ env.detect ((file.frames.drop pos).take env.fl)) :=
      Int.not_le.mpr (hdet ((file.frames.drop pos).take env.fl))
    rw [fileLoop, if_neg hne, if_neg hnotlt, if_neg hr]
    have hlen2 : file.frames.length = (pos + env.fl) + j * env.fl := by
      rw [hlen, Nat.succ_mul]
      omega
    have ih := ihj (pos + env.fl) m hlen2 hfl (by omega)
    simp only [detPositions, capCount, List.length_cons]
    exact ⟨ih.1, by rw [ih.2.1], ih.2.2⟩

/-- C4.  For a valid file of exactly N full detector frames on which the
detector reports no match for every window, file mode makes exactly N
detector calls, starts zero captures, and terminates at end of file. -/
theorem c4_no_match_exact_calls (env : FileEnv) (file : WavFile) (N : Nat)
    (hch : file.nchannels = 1) (hsw : file.sampwidth = 2)
    (hsr : file.framerate = env.sampleRate) (hfl : 0 < env.fl)
    (hlen : file.frames.length = N * env.fl) (hdet : ∀ w, env.detect w < 0) :
    (run_file_mode env file).2 = .eof ∧
    (detPositions (run_file_mode env file).1).length = N ∧
    capCount (run_file_mode env file).1 = 0 := by
  have hvalid : ¬ (file.nchannels ≠ 1 ∨ file.sampwidth ≠ 2 ∨ file.framerate ≠ env.sampleRate) := by
    push_neg
    exact ⟨hch, hsw, hsr⟩
  have hNle : N ≤ N * env.fl := Nat.le_mul_of_pos_right N hfl
  unfold run_file_mode
  rw [if_neg hvalid]
  apply fileLoop_noMatch env file hdet N 0 (file.frames.length + 1) (by omega) hfl
  have : N ≤ file.frames.length := by rw [hlen]; exact hNle
  omega

/-- C4, witness: a four-sample file with frame length two and a detector
that never matches yields two detector calls and no capture. -/
theorem c4_witness :
    (run_file_mode ⟨2, 16000, fun _ => -1, fun _ => .pending ""⟩ ⟨1, 2, 16000, [3, 4, 5, 6]⟩).2 = .eof ∧
    (detPositions (run_file_mode ⟨2, 16000, fun _ => -1, fun _ => .pending ""⟩
        ⟨1, 2, 16000, [3, 4, 5, 6]⟩).1).length = 2 ∧
    capCount (run_file_mode ⟨2, 16000, fun _ => -1, fun _ => .pending ""⟩
        ⟨1, 2, 16000, [3, 4, 5, 6]⟩).1 = 0 :=
  c4_no_match_exact_calls _ _ 2 rfl rfl rfl (by decide) (by decide)
    (fun _ => (by decide : (-1 : Int) < 0))

/-! Claim C3. -/

/-- Every window the file-mode scan hands to the detector has exactly the
native frame length: a short final read raises struct.error before the
detector is reached. -/
theorem fileLoop_window_length (env : FileEnv) (file : WavFile) :
    ∀ fuel pos p w r, FEvent.det p w r ∈ (fileLoop env file fuel pos).1 → w.length = env.fl := by
  intro fuel
  induction fuel with
  | zero =>
    intro pos p w r h
    simp [fileLoop] at h
  | succ m ih =>
    intro pos p w r h
    rw [fileLoop] at h
    by_cases h1 : ((file.frames.drop pos).take env.fl) = []
    · rw [if_pos h1] at h
      simp at h
    · rw [if_neg h1] at h
      by_cases h2 : ((file.frames.drop pos).take env.fl).length < env.fl
      · rw [if_pos h2] at h
        simp at h
      · rw [if_neg h2] at h
        have hle : ((file.frames.drop pos).take env.fl).length ≤ env.fl :=
          List.length_take_le env.fl (file.frames.drop pos)
        have hwl : ((file.frames.drop pos).take env.fl).length = env.fl := by omega
        by_cases h3 : 0 ≤ env.detect ((file.frames.drop pos).take env.fl)
        · rw [if_pos h3] at h
          simp only [List.mem_cons] at h
          rcases h with heq | heq | hmem
          · cases heq
            exact hwl
          · cases heq
          · exact ih _ _ _ _ hmem
        · rw [if_neg h3] at h
          simp only [List.mem_cons] at h
          rcases h with heq | hmem
          · cases heq
            exact hwl
          · exact ih _ _ _ _ hmem

/-- In radio mode the detector window recorded by a normally returning
process_audio_chunk call has exactly the native frame length: a decoded
unit shorter than the frame length raises struct.error at the unpack and
the detector is not called. -/
theorem process_audio_chunk_window_length (env : RadioEnv) (buffer : List Nat)
    (rep : ChunkReport) (hok : process_audio_chunk env buffer = Except.ok rep) :
    ∀ w, rep.detWindow = some w → w.length = env.fl := by
  intro w hw
  cases hd : env.decode buffer with
  | error k =>
    simp only [process_audio_chunk, hd] at hok
    by_cases hc : caughtByChunkHandler k = true
    · rw [if_pos hc] at hok
      injection hok with h
      subst h
      have hnone : (none : Option (List Int)) = some w := hw
      cases hnone
    · rw [if_neg hc] at hok
      cases hok
  | ok audio =>
    simp only [process_audio_chunk, hd] at hok
    by_cases h1 : (audio.take env.fl).length < env.fl
    · rw [if_pos h1] at hok
      injection hok with h
      subst h
      have hnone : (none : Option (List Int)) = some w := hw
      cases hnone
    · rw [if_neg h1] at hok
      have hle : (audio.take env.fl).length ≤ env.fl := List.length_take_le env.fl audio
      have hwl : (audio.take env.fl).length = env.fl := by omega
      by_cases h2 : 0 ≤ env.detect (audio.take env.fl)
      · rw [if_pos h2] at hok
        injection hok with h
        subst h
        have hsome : some (audio.take env.fl) = some w := hw
        cases hsome
        exact hwl
      · rw [if_neg h2] at hok
        injection hok with h
        subst h
        have hsome : some (audio.take env.fl) = some w := hw
        cases hsome
        exact hwl

/-- Every window the live-mode scan hands to the detector has exactly the
native frame length, because the blocking device read returns exactly the
requested number of samples. -/
theorem liveLoop_window_length (env : LiveEnv) (capFuel : Nat) :
    ∀ fuel pos rec, rec ∈ liveLoop env capFuel fuel pos → rec.1.length = env.fl := by
  intro fuel
  induction fuel with
  | zero =>
    intro pos rec h
    simp [liveLoop] at h
  | succ m ih =>
    intro pos rec h
    rw [liveLoop] at h
    simp only [List.mem_cons] at h
    rcases h with rfl | h
    · simp [liveWindow]
    · exact ih _ _ h

/-- C3.  In every run mode the detector only ever receives windows of
exactly its native frame length; when fewer samples are available the
unpack step fails first and the detector call does not happen. -/
theorem c3_detector_window_exact :
    (∀ (env : FileEnv) (file : WavFile) (p : Nat) (w : List Int) (r : Int),
        FEvent.det p w r ∈ (run_file_mode env file).1 → w.length = env.fl) ∧
    (∀ (env : RadioEnv) (buffer : List Nat) (rep : ChunkReport),
        process_audio_chunk env buffer = Except.ok rep →
        ∀ w, rep.detWindow = some w → w.length = env.fl) ∧
    (∀ (env : LiveEnv) (capFuel fuel : Nat) rec,
        rec ∈ run_live_mode env capFuel fuel → rec.1.length = env.fl) := by
  refine ⟨?_, ?_, ?_⟩
  · intro env file p w r h
    unfold run_file_mode at h
    by_cases hv : file.nchannels ≠ 1 ∨ file.sampwidth ≠ 2 ∨ file.framerate ≠ env.sampleRate
    · rw [if_pos hv] at h
      simp at h
    · rw [if_neg hv] at h
      exact fileLoop_window_length env file _ 0 p w r h
  · exact fun env buffer rep hok => process_audio_chunk_window_length env buffer rep hok
  · intro env capFuel fuel rec h
    exact liveLoop_window_length env capFuel fuel 0 rec h

/-- C3, witness: each mode at a concrete input, windows sized exactly to
the frame length. -/
theorem c3_witness :
    ([5, 6] : List Int).length = 2 ∧ ([7] : List Int).length = 1 ∧
    ([0, 0, 0] : List Int).length = 3 := by
  refine ⟨?_, ?_, ?_⟩
  · exact c3_detector_window_exact.1 ⟨2, 16000, fun _ => -1, fun _ => .pending ""⟩
      ⟨1, 2, 16000, [5, 6]⟩ 0 [5, 6] (-1) (by decide)
  · have hok : process_audio_chunk
        ⟨1, fun _ => Except.ok [7], fun _ => -1, fun _ => VoskStep.pending ""⟩ [9] =
        Except.ok ⟨none, some [7], none⟩ := rfl
    exact c3_detector_window_exact.2.1 _ [9] ⟨none, some [7], none⟩ hok [7] rfl
  · exact c3_detector_window_exact.2.2 ⟨3, fun _ => 0, fun _ => -1, fun _ => .pending ""⟩
      0 1 ([0, 0, 0], -1, none) (by decide)

/-! Claim C9. -/

/-- C9.  File mode rejects a file whose channel count is not 1, sample
width not 2 bytes, or rate different from the detector native rate,
before any frame is read: the run returns with no detector call and no
capture.  The capture routine performs the same validation against the
fixed 16000 Hz rate before any read of its own. -/
theorem c9_invalid_file_rejected (env : FileEnv) (file : WavFile) :
    ((file.nchannels ≠ 1 ∨ file.sampwidth ≠ 2 ∨ file.framerate ≠ env.sampleRate) →
       run_file_mode env file = ([], .rejected)) ∧
    (∀ (resp : Nat → VoskStep) (sf : Nat),
       (file.nchannels ≠ 1 ∨ file.sampwidth ≠ 2 ∨ file.framerate ≠ 16000) →
       recognize_next_word_from_position resp file sf = ⟨0, sf, none⟩) := by
  constructor
  · intro h
    unfold run_file_mode
    rw [if_pos h]
  · intro resp sf h
    unfold recognize_next_word_from_position
    rw [if_pos h]

/-- C9, witness: a stereo file is rejected by both entry points. -/
theorem c9_witness :
    run_file_mode ⟨2, 16000, fun _ => -1, fun _ => .pending ""⟩ ⟨2, 2, 16000, [1, 2]⟩ =
      ([], .rejected) ∧
    recognize_next_word_from_position (fun _ => .pending "") ⟨2, 2, 16000, [1, 2]⟩ 0 =
      ⟨0, 0, none⟩ := by
  constructor
  · exact (c9_invalid_file_rejected _ _).1 (Or.inl (by decide))
  · exact (c9_invalid_file_rejected ⟨2, 16000, fun _ => -1, fun _ => .pending ""⟩ _).2
      (fun _ => .pending "") 0 (Or.inl (by decide))

/-! Claim C7. -/

/-- The live capture loop breaks exactly at the first call whose response
fires liveStop, counting AcceptWaveform calls from the given index. -/
theorem micLoop_first_stop (resp : Nat → VoskStep) :
    ∀ n k fuel, (∀ m, m < n → liveStop (resp (k + m)) = false) →
      liveStop (resp (k + n)) = true → n < fuel →
      micLoop resp fuel k = some (k + n + 1) := by
  intro n
  induction n with
  | zero =>
    intro k fuel h0 hstop hfuel
    obtain ⟨m, rfl⟩ : ∃ m, fuel = m + 1 := ⟨fuel - 1, by omega⟩
    rw [Nat.add_zero] at hstop
    rw [micLoop, if_pos hstop]
  | succ j ihj =>
    intro k fuel h0 hstop hfuel
    obtain ⟨m, rfl⟩ : ∃ m, fuel = m + 1 := ⟨fuel - 1, by omega⟩
    have hk : liveStop (resp k) = false := by
      have := h0 0 (Nat.succ_pos j)
      rwa [Nat.add_zero] at this
    rw [micLoop, if_neg (by simp [hk])]
    have ih := ihj (k + 1) m
      (fun m2 hm2 => by
        have := h0 (m2 + 1) (by omega)
        rwa [show k + (m2 + 1) = k + 1 + m2 from by omega] at this)
      (by rwa [show k + 1 + j = k + (j + 1) from by omega])
      (by omega)
    rw [ih]
    simp only [Option.some.injEq]
    omega

/-- C7.  Under the live-mode partial-length policy, capture terminates at
exactly the first AcceptWaveform call whose partial text is longer than
one character; earlier calls, whether final results or partials of at
most one character, never break the loop. -/
theorem c7_live_policy_terminates_at_first_long_partial (resp : Nat → VoskStep)
    (n : Nat) (t : String)
    (hfirst : ∀ m, m < n → liveStop (resp m) = false)
    (hn : resp n = .pending t) (hlen : 1 < t.length) :
    ∀ fuel, n < fuel → recognize_next_word_microphone resp fuel = some (n + 1) := by
  intro fuel hfuel
  have hstop : liveStop (resp n) = true := by
    rw [hn]
    simpa [liveStop] using hlen
  have h := micLoop_first_stop resp n 0 fuel
    (fun m hm => by simpa using hfirst m hm) (by simpa using hstop) hfuel
  simpa [recognize_next_word_microphone] using h

/-- C7, witness: partial "a" then partial "ab" terminates at the second
call, not the first. -/
theorem c7_witness :
    recognize_next_word_microphone
      (fun i => if i = 0 then .pending "a" else if i = 1 then .pending "ab" else .pending "")
      10 = some 2 :=
  c7_live_policy_terminates_at_first_long_partial
    (fun i => if i = 0 then .pending "a" else if i = 1 then .pending "ab" else .pending "")
    1 "ab" (by decide) (by decide) (by decide) 10 (by decide)

/-! Claim C8. -/

/-- Break test of the file capture loop: AcceptWaveform returned True and
the final text is non-empty. -/
def fileStop : VoskStep → Bool
  | .accepted t => decide (t ≠ "")
  | .pending _ => false

/-- The file capture loop stops exactly at the first call whose response
is a non-empty final result, provided enough frames remain for that many
full reads; earlier partial results and empty final results continue. -/
theorem capLoop_first_final (resp : Nat → VoskStep) (frames : List Int) (t : String)
    (ht : t ≠ "") :
    ∀ n k pos fuel, (∀ m, m < n → fileStop (resp (k + m)) = false) →
      resp (k + n) = .accepted t →
      pos + n * 8000 < frames.length → n < fuel →
      (capLoop resp frames fuel pos k).calls = k + n + 1 ∧
      (capLoop resp frames fuel pos k).text = some t := by
  intro n
  induction n with
  | zero =>
    intro k pos fuel h0 hn hpos hfuel
    obtain ⟨m, rfl⟩ : ∃ m, fuel = m + 1 := ⟨fuel - 1, by omega⟩
    rw [Nat.add_zero] at hn
    have hlen : ((frames.drop pos).take 8000).length = min 8000 (frames.length - pos) := by
      rw [List.length_take, List.length_drop]
    have hne : (frames.drop pos).take 8000 ≠ [] := by
      intro hnil
      rw [hnil] at hlen
      simp at hlen
      omega
    rw [capLoop, if_neg hne]
    simp only [hn]
    rw [if_neg ht]
    exact ⟨rfl, rfl⟩
  | succ j ihj =>
    intro k pos fuel h0 hn hpos hfuel
    obtain ⟨m, rfl⟩ : ∃ m, fuel = m + 1 := ⟨fuel - 1, by omega⟩
    have hlen : ((frames.drop pos).take 8000).length = 8000 := by
      rw [List.length_take, List.length_drop]
      omega
    have hne : (frames.drop pos).take 8000 ≠ [] := by
      intro hnil
      rw [hnil] at hlen
      simp at hlen
    have hih := ihj (k + 1) (pos + 8000) m
      (fun m2 hm2 => by
        have := h0 (m2 + 1) (by omega)
        rwa [show k + (m2 + 1) = k + 1 + m2 from by omega] at this)
      (by rwa [show k + 1 + j = k + (j + 1) from by omega])
      (by omega)
      (by omega)
    rw [capLoop, if_neg hne]
    cases hr : resp k with
    | accepted t2 =>
      have ht2 : t2 = "" := by
        have := h0 0 (Nat.succ_pos j)
        rw [Nat.add_zero, hr] at this
        simpa [fileStop] using this
      subst ht2
      simp only [hr, hlen, if_true]
      obtain ⟨hc, htx⟩ := hih
      exact ⟨by omega, htx⟩
    | pending t2 =>
      simp only [hr, hlen]
      obtain ⟨hc, htx⟩ := hih
      exact ⟨by omega, htx⟩

/-- If no response ever is a non-empty final result, the capture loop
ends, at the latest at input exhaustion, with no recognized text. -/
theorem capLoop_no_final (resp : Nat → VoskStep) (frames : List Int)
    (hq : ∀ m, fileStop (resp m) = false) :
    ∀ fuel pos k, (capLoop resp frames fuel pos k).text = none := by
  intro fuel
  induction fuel with
  | zero => intro pos k; rfl
  | succ m ih =>
    intro pos k
    by_cases hne : (frames.drop pos).take 8000 = []
    · rw [capLoop, if_pos hne]
    · rw [capLoop, if_neg hne]
      cases hr : resp k with
      | accepted t2 =>
        have ht2 : t2 = "" := by
          have := hq k
          rw [hr] at this
          simpa [fileStop] using this
        subst ht2
        simp only [hr, if_true]
        exact ih _ _
      | pending t2 =>
        simp only [hr]
        exact ih _ _

/-- C8.  Under the file-mode final-result policy, capture terminates at
exactly the first AcceptWaveform call reporting a non-empty final result
(partial results and empty final results never terminate it), and if the
input is exhausted before any such result, capture ends with no
recognized text. -/
theorem c8_file_policy_terminates_at_first_final (resp : Nat → VoskStep)
    (file : WavFile) (startFrame : Nat) :
    (∀ (n : Nat) (t : String),
       file.nchannels = 1 → file.sampwidth = 2 → file.framerate = 16000 →
       (∀ m, m < n → fileStop (resp m) = false) →
       resp n = .accepted t → t ≠ "" →
       startFrame + n * 8000 < file.frames.length →
       (recognize_next_word_from_position resp file startFrame).calls = n + 1 ∧
       (recognize_next_word_from_position resp file startFrame).text = some t) ∧
    ((∀ m, fileStop (resp m) = false) →
       (recognize_next_word_from_position resp file startFrame).text = none) := by
  constructor
  · intro n t hch hsw hfr h0 hn ht hpos
    have hvalid : ¬ (file.nchannels ≠ 1 ∨ file.sampwidth ≠ 2 ∨ file.framerate ≠ 16000) := by
      push_neg
      exact ⟨hch, hsw, hfr⟩
    unfold recognize_next_word_from_position
    rw [if_neg hvalid]
    have hnm : n < file.frames.length + 1 := by omega
    have h := capLoop_first_final resp file.frames t ht n 0 startFrame
      (file.frames.length + 1) (fun m hm => by simpa using h0 m hm) (by simpa using hn)
      hpos hnm
    simpa using h
  · intro hq
    unfold recognize_next_word_from_position
    by_cases hv : file.nchannels ≠ 1 ∨ file.sampwidth ≠ 2 ∨ file.framerate ≠ 16000
    · rw [if_pos hv]
    · rw [if_neg hv]
      exact capLoop_no_final resp file.frames hq _ _ _

/-- C8, witness: five partial results then a non-empty final on the sixth
call terminate capture at call six; a transcriber that only ever reports
partials ends with no recognized text. -/
theorem c8_witness :
    ((recognize_next_word_from_position
        (fun i => if i < 5 then .pending "x" else .accepted "ok")
        ⟨1, 2, 16000, List.replicate 40001 0⟩ 0).calls = 6 ∧
     (recognize_next_word_from_position
        (fun i => if i < 5 then .pending "x" else .accepted "ok")
        ⟨1, 2, 16000, List.replicate 40001 0⟩ 0).text = some "ok") ∧
    (recognize_next_word_from_position (fun _ => .pending "x") ⟨1, 2, 16000, [0]⟩ 0).text =
      none := by
  constructor
  · obtain ⟨h1, h2⟩ := (c8_file_policy_terminates_at_first_final
        (fun i => if i < 5 then .pending "x" else .accepted "ok")
        ⟨1, 2, 16000, List.replicate 40001 0⟩ 0).1 5 "ok" rfl rfl rfl
      (by decide) (by decide) (by decide)
      (by show 0 + 5 * 8000 < (List.replicate 40001 (0 : Int)).length
          rw [List.length_replicate]
          omega)
    exact ⟨by rw [h1], h2⟩
  · exact (c8_file_policy_terminates_at_first_final (fun _ => .pending "x")
      ⟨1, 2, 16000, [0]⟩ 0).2 (fun m => rfl)

/-! Claim C5. -/

/-- C5.  In stream mode a non-empty chunk is appended to the buffer and a
flush runs immediately after that append exactly when the appended buffer
has reached the size ceiling or the elapsed time since the last flush has
reached the time ceiling; in particular a small buffer still flushes on
the time ceiling alone, and empty chunks leave the state untouched. -/
theorem c5_flush_iff_ceiling (cfg : RadioCfg) (env : RadioEnv) (s : RState) (e : ChunkEvent) :
    ((radioStep cfg env s e).flushUnit = some (s.buffer ++ e.chunk) ↔
       (e.chunk ≠ [] ∧ (cfg.sizeCeil ≤ (s.buffer ++ e.chunk).length ∨
          cfg.timeCeil ≤ e.tArrive - s.startTime))) ∧
    (e.chunk = [] → radioStep cfg env s e = .ok s none) ∧
    (e.chunk ≠ [] →
      ¬ (cfg.sizeCeil ≤ (s.buffer ++ e.chunk).length ∨ cfg.timeCeil ≤ e.tArrive - s.startTime) →
      radioStep cfg env s e = .ok ⟨s.buffer ++ e.chunk, s.startTime⟩ none) := by
  refine ⟨?_, ?_, ?_⟩
  · by_cases he : e.chunk = []
    · constructor
      · intro hfl
        rw [radioStep, if_pos he] at hfl
        simp [StepResult.flushUnit] at hfl
      · rintro ⟨hne, _⟩
        exact absurd he hne
    · by_cases hc : cfg.sizeCeil ≤ (s.buffer ++ e.chunk).length ∨
          cfg.timeCeil ≤ e.tArrive - s.startTime
      · constructor
        · intro _
          exact ⟨he, hc⟩
        · intro _
          rw [radioStep, if_neg he, if_pos hc]
          cases hp : process_audio_chunk env (s.buffer ++ e.chunk) with
          | ok rep => rfl
          | error k => rfl
      · constructor
        · intro hfl
          rw [radioStep, if_neg he, if_neg hc] at hfl
          simp [StepResult.flushUnit] at hfl
        · rintro ⟨_, hcc⟩
          exact absurd hcc hc
  · intro he
    rw [radioStep, if_pos he]
  · intro hne hnc
    rw [radioStep, if_neg hne, if_neg hnc]

/-- C5, witness: a two-byte buffer far below the size ceiling flushes
once the time ceiling has elapsed, and an empty chunk changes nothing. -/
theorem c5_witness :
    (radioStep ⟨100, 5⟩ ⟨1, fun _ => Except.ok [3], fun _ => -1, fun _ => .pending ""⟩
        ⟨[9], 0⟩ ⟨[4], 7, 8⟩).flushUnit = some [9, 4] ∧
    radioStep ⟨100, 5⟩ ⟨1, fun _ => Except.ok [3], fun _ => -1, fun _ => .pending ""⟩
        ⟨[9], 0⟩ ⟨[], 7, 8⟩ = .ok ⟨[9], 0⟩ none := by
  constructor
  · exact (c5_flush_iff_ceiling _ _ _ _).1.mpr ⟨by decide, Or.inr (by decide)⟩
  · exact (c5_flush_iff_ceiling _ _ _ _).2.1 rfl

/-! Claim C6. -/

/-- A continuing ingestion step preserves the buffer bound: the next
buffer stays below the size ceiling, and if the step flushed, the next
buffer is empty and the flushed unit is below the ceiling plus the size
of the one chunk just appended. -/
theorem radioStep_ok_inv (cfg : RadioCfg) (env : RadioEnv) (s : RState) (e : ChunkEvent)
    (s2 : RState) (flushed : Option (List Nat × ChunkReport))
    (hs : s.buffer.length < cfg.sizeCeil)
    (h : radioStep cfg env s e = .ok s2 flushed) :
    s2.buffer.length < cfg.sizeCeil ∧
    (∀ u rep, flushed = some (u, rep) →
       s2.buffer = [] ∧ u.length < cfg.sizeCeil + e.chunk.length) := by
  rw [radioStep] at h
  by_cases he : e.chunk = []
  · rw [if_pos he] at h
    injection h with h1 h2
    subst h1
    subst h2
    exact ⟨hs, fun u rep hru => by cases hru⟩
  · rw [if_neg he] at h
    by_cases hc : cfg.sizeCeil ≤ (s.buffer ++ e.chunk).length ∨
        cfg.timeCeil ≤ e.tArrive - s.startTime
    · rw [if_pos hc] at h
      cases hp : process_audio_chunk env (s.buffer ++ e.chunk) with
      | ok rep =>
        simp only [hp] at h
        injection h with h1 h2
        subst h1
        subst h2
        refine ⟨by simpa using Nat.pos_of_ne_zero (by omega), ?_⟩
        intro u rep2 hru
        injection hru with h3
        injection h3 with h4 h5
        subst h4
        refine ⟨rfl, ?_⟩
        rw [List.length_append]
        omega
      | error k =>
        simp only [hp] at h
        cases h
    · rw [if_neg hc] at h
      injection h with h1 h2
      subst h1
      subst h2
      push_neg at hc
      exact ⟨hc.1, fun u rep hru => by cases hru⟩

/-- C6.  Starting below the size ceiling, every ingested chunk leaves the
buffer below the ceiling; every flush leaves the buffer empty, and the
flushed unit never exceeds the ceiling by more than the size of the one
chunk whose append triggered it. -/
theorem c6_buffer_invariant (cfg : RadioCfg) (env : RadioEnv) :
    ∀ (events : List ChunkEvent) (s : RState), s.buffer.length < cfg.sizeCeil →
      ∀ rec ∈ (run_radio_mode cfg env s events).1,
        rec.after.buffer.length < cfg.sizeCeil ∧
        (∀ u rep, rec.flushed = some (u, rep) →
           rec.after.buffer = [] ∧ u.length < cfg.sizeCeil + rec.event.chunk.length) := by
  intro events
  induction events with
  | nil =>
    intro s hs rec hrec
    simp [run_radio_mode] at hrec
  | cons e rest ih =>
    intro s hs rec hrec
    rw [run_radio_mode] at hrec
    cases hstep : radioStep cfg env s e with
    | ok s2 flushed =>
      simp only [hstep] at hrec
      have hinv := radioStep_ok_inv cfg env s e s2 flushed hs hstep
      simp only [List.mem_cons] at hrec
      rcases hrec with rfl | hmem
      · exact ⟨hinv.1, hinv.2⟩
      · exact ih s2 hinv.1 rec hmem
    | abort u k =>
      simp only [hstep] at hrec
      simp at hrec

/-- C6, witness: a flush triggered at the size ceiling leaves an empty
buffer and a flushed unit within one chunk of the ceiling. -/
theorem c6_witness :
    ((⟨⟨[7, 8], 0, 1⟩, some ([7, 8], ⟨none, some [5], none⟩), ⟨[], 1⟩⟩ : StepRec).after.buffer.length < 2) ∧
    (∀ u rep,
      (⟨⟨[7, 8], 0, 1⟩, some ([7, 8], ⟨none, some [5], none⟩), ⟨[], 1⟩⟩ : StepRec).flushed =
        some (u, rep) →
      (⟨⟨[7, 8], 0, 1⟩, some ([7, 8], ⟨none, some [5], none⟩), ⟨[], 1⟩⟩ : StepRec).after.buffer = [] ∧
      u.length < 2 + (⟨⟨[7, 8], 0, 1⟩, some ([7, 8], ⟨none, some [5], none⟩), ⟨[], 1⟩⟩ : StepRec).event.chunk.length) :=
  c6_buffer_invariant ⟨2, 9⟩ ⟨1, fun _ => Except.ok [5], fun _ => -1, fun _ => .pending ""⟩
    [⟨[7, 8], 0, 1⟩] ⟨[], 0⟩ (by decide)
    ⟨⟨[7, 8], 0, 1⟩, some ([7, 8], ⟨none, some [5], none⟩), ⟨[], 1⟩⟩ (by decide)

/-! Claim C2. -/

/-- Whether the chunk-processing step returned normally (all raised
exceptions caught inside it). -/
def chunkOk : Except PyExc ChunkReport → Bool
  | .ok _ => true
  | .error _ => false

/-- If every decode failure raises one of the caught exception classes,
process_audio_chunk always returns normally. -/
theorem process_audio_chunk_ok (env : RadioEnv)
    (hc : ∀ b k, env.decode b = .error k → caughtByChunkHandler k = true) (buffer : List Nat) :
    chunkOk (process_audio_chunk env buffer) = true := by
  cases hd : env.decode buffer with
  | error k =>
    simp only [process_audio_chunk, hd]
    rw [if_pos (hc buffer k hd)]
    rfl
  | ok audio =>
    simp only [process_audio_chunk, hd]
    by_cases h1 : (audio.take env.fl).length < env.fl
    · rw [if_pos h1]
      rfl
    · rw [if_neg h1]
      by_cases h2 : 0 ≤ env.detect (audio.take env.fl)
      · rw [if_pos h2]
        rfl
      · rw [if_neg h2]
        rfl

/-- Under the same decoder condition, no ingestion step ever aborts. -/
theorem radioStep_no_abort (cfg : RadioCfg) (env : RadioEnv)
    (hc : ∀ b k, env.decode b = .error k → caughtByChunkHandler k = true)
    (s : RState) (e : ChunkEvent) (u : List Nat) (k : PyExc)
    (h : radioStep cfg env s e = .abort u k) : False := by
  rw [radioStep] at h
  by_cases he : e.chunk = []
  · rw [if_pos he] at h
    cases h
  · rw [if_neg he] at h
    by_cases hcnd : cfg.sizeCeil ≤ (s.buffer ++ e.chunk).length ∨
        cfg.timeCeil ≤ e.tArrive - s.startTime
    · rw [if_pos hcnd] at h
      cases hp : process_audio_chunk env (s.buffer ++ e.chunk) with
      | ok rep =>
        simp only [hp] at h
        cases h
      | error k2 =>
        have hok := process_audio_chunk_ok env hc (s.buffer ++ e.chunk)
        rw [hp] at hok
        simp [chunkOk] at hok
    · rw [if_neg hcnd] at h
      cases h

/-- A step that flushed left the buffer empty. -/
theorem radioStep_flushed_empty (cfg : RadioCfg) (env : RadioEnv) (s : RState) (e : ChunkEvent)
    (s2 : RState) (u : List Nat) (rep : ChunkReport)
    (h : radioStep cfg env s e = .ok s2 (some (u, rep))) : s2.buffer = [] := by
  rw [radioStep] at h
  by_cases he : e.chunk = []
  · rw [if_pos he] at h
    injection h with h1 h2
    cases h2
  · rw [if_neg he] at h
    by_cases hcnd : cfg.sizeCeil ≤ (s.buffer ++ e.chunk).length ∨
        cfg.timeCeil ≤ e.tArrive - s.startTime
    · rw [if_pos hcnd] at h
      cases hp : process_audio_chunk env (s.buffer ++ e.chunk) with
      | ok rep2 =>
        simp only [hp] at h
        injection h with h1 h2
        rw [← h1]
      | error k =>
        simp only [hp] at h
        cases h
    · rw [if_neg hcnd] at h
      injection h with h1 h2
      cases h2

/-- C2, amended.  When every decode failure raises one of the exception
classes the chunk handler catches (IOError, struct.error, ValueError),
ingestion never aborts: every chunk of the trace is consumed, the run
ends normally, and after each flush, failed or not, the buffer is empty
and the loop continues. -/
theorem c2_caught_decode_failures_contained (cfg : RadioCfg) (env : RadioEnv)
    (hc : ∀ b k, env.decode b = .error k → caughtByChunkHandler k = true) :
    ∀ (events : List ChunkEvent) (s : RState),
      (run_radio_mode cfg env s events).1.length = events.length ∧
      (run_radio_mode cfg env s events).2.isDone = true ∧
      ∀ rec ∈ (run_radio_mode cfg env s events).1,
        ∀ u rep, rec.flushed = some (u, rep) → rec.after.buffer = [] := by
  intro events
  induction events with
  | nil =>
    intro s
    refine ⟨rfl, rfl, ?_⟩
    intro rec h
    simp [run_radio_mode] at h
  | cons e rest ih =>
    intro s
    cases hstep : radioStep cfg env s e with
    | abort u k => exact absurd hstep (fun h => radioStep_no_abort cfg env hc s e u k h)
    | ok s2 flushed =>
      have hrun : run_radio_mode cfg env s (e :: rest) =
          (⟨e, flushed, s2⟩ :: (run_radio_mode cfg env s2 rest).1,
           (run_radio_mode cfg env s2 rest).2) := by
        rw [run_radio_mode, hstep]
      rw [hrun]
      refine ⟨?_, (ih s2).2.1, ?_⟩
      · simp [List.length_cons, (ih s2).1]
      · intro rec hrec
        simp only [List.mem_cons] at hrec
        rcases hrec with rfl | hmem
        · intro u rep hfl
          have hfl2 : flushed = some (u, rep) := hfl
          rw [hfl2] at hstep
          exact radioStep_flushed_empty cfg env s e s2 u rep hstep
        · exact (ih s2).2.2 rec hmem

/-- Decoder for the C2 witness: every decode failure is an IOError, one
of the caught classes. -/
def c2EnvCaught : RadioEnv := ⟨1, fun _ => .error .ioError, fun _ => -1, fun _ => .pending ""⟩

/-- C2, witness: two chunks, the first flushing into a caught decode
failure; both chunks are consumed and the run ends normally. -/
theorem c2_witness :
    (run_radio_mode ⟨10, 5⟩ c2EnvCaught ⟨[], 0⟩ [⟨[1], 5, 5⟩, ⟨[2], 6, 6⟩]).1.length = 2 ∧
    (run_radio_mode ⟨10, 5⟩ c2EnvCaught ⟨[], 0⟩ [⟨[1], 5, 5⟩, ⟨[2], 6, 6⟩]).2.isDone = true := by
  have h := c2_caught_decode_failures_contained ⟨10, 5⟩ c2EnvCaught
    (fun b k hbk => by
      injection hbk with h2
      rw [← h2]
      rfl)
    [⟨[1], 5, 5⟩, ⟨[2], 6, 6⟩] ⟨[], 0⟩
  exact ⟨h.1, h.2.1⟩

/-- Decoder for the C2 counterexample: the decode failure raises pydub
CouldntDecodeError, which the except clause does not list. -/
def c2EnvUncaught : RadioEnv :=
  ⟨1, fun _ => .error .couldntDecode, fun _ => -1, fun _ => .pending ""⟩

/-- C2, counterexample.  A decode failure whose exception class is
pydub CouldntDecodeError escapes process_audio_chunk, and the ingestion
loop aborts with the second chunk never ingested: not every decode
failure is contained. -/
theorem c2_counterexample :
    process_audio_chunk c2EnvUncaught [1, 2, 3] = .error .couldntDecode ∧
    run_radio_mode ⟨10, 5⟩ c2EnvUncaught ⟨[], 0⟩ [⟨[1, 2, 3], 5, 5⟩, ⟨[4], 6, 6⟩] =
      ([], .aborted .couldntDecode [⟨[1, 2, 3], 5, 5⟩, ⟨[4], 6, 6⟩]) := by
  exact ⟨rfl, rfl⟩

/-! Claim C10. -/

/-- C10.  Radio-mode recognition is a single shot: recognize_word_in_chunk
submits the whole decoded unit in exactly one AcceptWaveform call of a
fresh recognizer and returns the final text when a segment completed,
otherwise the partial text; and on a wake match process_audio_chunk calls
exactly that, over the full decoded unit. -/
theorem c10_single_shot_recognition :
    (∀ (v : List Int → VoskStep) (d : List Int),
       (recognize_word_in_chunk v d).2 = [d] ∧
       (∀ t, v d = .accepted t → (recognize_word_in_chunk v d).1 = t) ∧
       (∀ t, v d = .pending t → (recognize_word_in_chunk v d).1 = t)) ∧
    (∀ (env : RadioEnv) (buffer : List Nat) (audioData : List Int),
       env.decode buffer = .ok audioData →
       env.fl ≤ audioData.length →
       0 ≤ env.detect (audioData.take env.fl) →
       process_audio_chunk env buffer =
         .ok ⟨none, some (audioData.take env.fl),
              some (recognize_word_in_chunk env.vosk1 audioData)⟩) := by
  constructor
  · intro v d
    refine ⟨?_, ?_, ?_⟩
    · cases hv : v d <;> simp [recognize_word_in_chunk, hv]
    · intro t hvt
      simp [recognize_word_in_chunk, hvt]
    · intro t hvt
      simp [recognize_word_in_chunk, hvt]
  · intro env buffer audioData hd hfl hdet
    have h1 : ¬ (audioData.take env.fl).length < env.fl := by
      rw [List.length_take]
      omega
    simp only [process_audio_chunk, hd]
    rw [if_neg h1, if_pos hdet]

/-- C10, witness: one call carrying the whole chunk, and a matched
process_audio_chunk recognizing over the full two-sample decoded unit
while detecting on its one-sample head. -/
theorem c10_witness :
    (recognize_word_in_chunk (fun _ => .accepted "hey") ([1, 2] : List Int)).2 = [[1, 2]] ∧
    (recognize_word_in_chunk (fun _ => .accepted "hey") ([1, 2] : List Int)).1 = "hey" ∧
    process_audio_chunk ⟨1, fun _ => Except.ok [3, 4], fun _ => 0, fun _ => .pending "m"⟩ [9] =
      Except.ok ⟨none, some [3], some ("m", [[3, 4]])⟩ := by
  refine ⟨?_, ?_, ?_⟩
  · exact (c10_single_shot_recognition.1 (fun _ => .accepted "hey") [1, 2]).1
  · exact (c10_single_shot_recognition.1 (fun _ => .accepted "hey") [1, 2]).2.1 "hey" rfl
  · exact c10_single_shot_recognition.2
      ⟨1, fun _ => Except.ok [3, 4], fun _ => 0, fun _ => .pending "m"⟩ [9] [3, 4]
      rfl (by decide) (by decide)

end SoundProc
